import Mathlib

/-!
# Verification of the viem-playground instrumentation-and-execution pipeline

Shallow embedding of the core of `src/components/Playground.tsx` and
`src/lib/esbuild.ts`:

* the sandbox value serializer `__safeSerialize` (maxDepth = 3, key cap 50,
  a per-call `WeakSet` of already-visited objects, per-key try/catch),
  both as a total function over values without throwing coercions and,
  for the failure analysis, with the JS exception channel made explicit;
* the trace emitter `__log`;
* the source instrumenter inside `handleRun` (declaration extraction,
  declaration/destructuring rewrites scoped to the originally declared
  names, and the `console.log` rewrite), modelled as character-list
  scanners with the same matching semantics as the JS regexes used there;
* the host message handler (reserved-key filtering, error handling) and
  the `handleRun` re-entrancy guard;
* the bare-specifier resolver of the esbuild HTTP plugin.

JS objects are modelled by identity: a `Heap` maps object addresses to
field lists, so shared references and cycles are representable exactly as
in the running program.
-/

/-- JS primitive values that `__safeSerialize` passes through unchanged
(null and the string, number and boolean results of the `typeof` test). -/
inductive JSPrim where
  | vNull : JSPrim
  | vStr : String → JSPrim
  | vNum : Int → JSPrim
  | vBool : Bool → JSPrim
  deriving DecidableEq, Repr

/-- An object field as seen by the per-key `try`/`catch` of the serializer:
either the property read yields a value, or reading/serializing it
throws (`catch` replaces the value with the text [Unserializable] for that key). -/
inductive JField (α : Type) where
  | ok : α → JField α
  | throws : JField α
  deriving DecidableEq, Repr

/-- Runtime values reaching `__safeSerialize`, dispatched in the order of
the `typeof` and `instanceof` tests of the source. Plain objects are heap
addresses so that reference identity (the `WeakSet` semantics) is
modelled faithfully. Values whose own coercion throws (an Invalid Date,
whose `toISOString()` raises) are not representable here; they — and the
exception propagation they cause — are covered by `JSValE` and the
exception-explicit serializer `innerE` below. -/
inductive JSVal where
  | prim : JSPrim → JSVal
  | big : String → JSVal
  | func : String → JSVal
  | sym : String → JSVal
  | err : String → String → String → JSVal
  | date : String → JSVal
  | arr : List JSVal → JSVal
  | obj : Nat → JSVal
  deriving Repr

/-- A heap: object addresses to field lists (field order = `Object.keys`
order). An address missing from the heap behaves as an empty object. -/
abbrev Heap : Type := List (Nat × List (String × JField JSVal))

/-- Field list (the `Object.keys` view) of the object at address `a`. -/
def heapFields (heap : Heap) (a : Nat) : List (String × JField JSVal) :=
  match heap.find? (fun p => p.1 = a) with
  | some p => p.2
  | none => []

/-- Output of the serializer: a JSON-transportable tree. Tagged records
model the `{ __type: ..., ... }` forms; their payload fields are strings
in the source (`toString()`, `String(val)`, `toISOString()`, names,
messages, stacks). -/
inductive SVal where
  | prim : JSPrim → SVal
  | tagged : String → List (String × String) → SVal
  | arr : List SVal → SVal
  | obj : List (String × SVal) → SVal
  deriving Repr

/-- Marker string `[MaxDepth]` of the depth bound. -/
def maxDepthMarker : SVal := .prim (.vStr "[MaxDepth]")

/-- Marker string `[Circular]` of the cycle check. -/
def circularMarker : SVal := .prim (.vStr "[Circular]")

/-- Marker string `[Unserializable]` of the per-key catch. -/
def unserializableMarker : SVal := .prim (.vStr "[Unserializable]")

/-- Embedding of `val.map((item) => inner(item, depth + 1))`, with the `WeakSet`
state threaded left to right exactly as the JS mutation order does. -/
def serItems (f : JSVal → List Nat → SVal × List Nat) :
    List JSVal → List Nat → List SVal × List Nat
  | [], seen => ([], seen)
  | it :: rest, seen =>
    let r := f it seen
    let rs := serItems f rest r.2
    (r.1 :: rs.1, rs.2)

/-- The `for (const key of keys)` loop with the per-key `try`/`catch`:
a throwing field becomes `[Unserializable]` and leaves the `WeakSet`
untouched (this `throws` constructor models a throwing property read,
`val[key]`, which does not touch the set); an ok field is serialized
with the threaded state. A key whose read succeeds but whose value then
fails to serialize — mutating the set before throwing — is modelled by
`serFieldsE` below. -/
def serFields (f : JSVal → List Nat → SVal × List Nat) :
    List (String × JField JSVal) → List Nat → List (String × SVal) × List Nat
  | [], seen => ([], seen)
  | (k, .throws) :: rest, seen =>
    let rs := serFields f rest seen
    ((k, unserializableMarker) :: rs.1, rs.2)
  | (k, .ok v) :: rest, seen =>
    let r := f v seen
    let rs := serFields f rest r.2
    ((k, r.1) :: rs.1, rs.2)

/-- The recursive `inner(val, depth)` of `__safeSerialize`.

The source checks `if (depth > maxDepth) return the MaxDepth marker` on entry and
recurses with `depth + 1`; here `gas = maxDepth + 1 - depth`, so the entry
check is exactly `gas = 0` and recursive calls pass `gas - 1`. `seen` is
the `WeakSet`: objects are added when first descended into and are never
removed (`seen.add(val)` has no matching delete), and arrays are handled
by the `Array.isArray` branch before the object branch, so they never
touch `seen` — both faithful to the source. -/
def innerF (heap : Heap) : Nat → JSVal → List Nat → SVal × List Nat
  | 0 => fun _ seen => (maxDepthMarker, seen)
  | gas + 1 => fun v seen =>
    match v with
    | .prim p => (.prim p, seen)
    | .big s => (.tagged "bigint" [("value", s)], seen)
    | .func n =>
      (.tagged "function" [("name", if n = "" then "anonymous" else n)], seen)
    | .sym s => (.tagged "symbol" [("value", s)], seen)
    | .err n m stk =>
      (.tagged "Error" [("name", n), ("message", m), ("stack", stk)], seen)
    | .date iso => (.tagged "Date" [("value", iso)], seen)
    | .arr items =>
      let r := serItems (innerF heap gas) items seen
      (.arr r.1, r.2)
    | .obj a =>
      if a ∈ seen then (circularMarker, seen)
      else
        let r :=
          serFields (innerF heap gas) ((heapFields heap a).take 50) (a :: seen)
        (.obj r.1, r.2)

/-- Embedding of `window.__safeSerialize`: `maxDepth = 3`, fresh `WeakSet`,
and `inner(value, 0)` — i.e. initial gas `3 + 1 - 0 = 4`. -/
def safeSerialize (heap : Heap) (v : JSVal) : SVal :=
  (innerF heap 4 v []).1

-- A DAG with one shared, non-ancestor reference: address 1 is reachable
-- from address 0 both at key "a" and at key "b".
def dagHeap : Heap :=
  [(0, [("a", .ok (.obj 1)), ("b", .ok (.obj 1))]),
   (1, [("x", .ok (.prim (.vNum 1)))])]

-- A direct self-reference: `a.self = a`.
def selfHeap : Heap := [(0, [("self", .ok (.obj 0))])]

-- The depth example of the spec: `{a:{b:{c:{d:1}}}}`.
def nestHeap : Heap :=
  [(0, [("a", .ok (.obj 1))]),
   (1, [("b", .ok (.obj 2))]),
   (2, [("c", .ok (.obj 3))]),
   (3, [("d", .ok (.prim (.vNum 1)))])]

mutual

/-- Does a serialized tree contain the `[MaxDepth]` marker anywhere?
(The markers are in-band strings, so this checks for the literal marker
text among the primitive string atoms of the output.) -/
def hasMD : SVal → Bool
  | .prim (.vStr s) => s = "[MaxDepth]"
  | .prim _ => false
  | .tagged _ _ => false
  | .arr items => hasMDList items
  | .obj fields => hasMDFields fields

/-- Extension of `hasMD` to a list of elements. -/
def hasMDList : List SVal → Bool
  | [] => false
  | x :: xs => hasMD x || hasMDList xs

/-- Extension of `hasMD` to the values of a field list. -/
def hasMDFields : List (String × SVal) → Bool
  | [] => false
  | kv :: xs => hasMD kv.2 || hasMDFields xs

end

/-- Depth bound `DepthLe heap v n`: the value `v` nests at most `n` levels (counting
every atom, arrays and objects adding one level for their members), all
object references resolved through `heap`, and no primitive string atom
of `v` is the literal marker text `"[MaxDepth]"`. -/
inductive DepthLe (heap : Heap) : JSVal → Nat → Prop where
  | prim : ∀ (p : JSPrim) (n : Nat), p ≠ .vStr "[MaxDepth]" →
      DepthLe heap (.prim p) n
  | big : ∀ s n, DepthLe heap (.big s) n
  | func : ∀ s n, DepthLe heap (.func s) n
  | sym : ∀ s n, DepthLe heap (.sym s) n
  | err : ∀ a b c n, DepthLe heap (.err a b c) n
  | date : ∀ s n, DepthLe heap (.date s) n
  | arr : ∀ (items : List JSVal) (n : Nat),
      (∀ v ∈ items, DepthLe heap v n) → DepthLe heap (.arr items) (n + 1)
  | obj : ∀ (a : Nat) (n : Nat),
      (∀ kv ∈ heapFields heap a, ∀ v, kv.2 = JField.ok v → DepthLe heap v n) →
      DepthLe heap (.obj a) (n + 1)

-- A flat object (one serializable key, one throwing key), nested well
-- within the depth bound.
def flatHeap : Heap := [(0, [("p", .ok (.prim (.vBool true))), ("q", .throws)])]

/-! ## Source instrumenter of `handleRun`

The instrumenter works by JS global-regex rewriting over raw text. The
regexes used there are embedded below as deterministic character-list
scanners with the same matching semantics (left-to-right scan,
non-overlapping matches, replacement text never rescanned, greedy
character classes; where the regex engine would backtrack, the
equivalent deterministic condition is spelled out at the definition). -/

/-- Whitespace for the regex class of blanks. -/
def isWS (c : Char) : Bool := c = ' ' || c = '\t' || c = '\n' || c = '\r'

/-- Word characters, as used by the word-boundary test of the regexes
(letters, digits and underscore; the dollar sign is not a word char). -/
def isWordChar (c : Char) : Bool := c.isAlphanum || c = '_'

/-- First character of the identifier class `[a-zA-Z_$]`. -/
def isIdentStart (c : Char) : Bool := c.isAlpha || c = '_' || c = '$'

/-- Continuation character of the identifier class `[a-zA-Z0-9_$]`. -/
def isIdentChar (c : Char) : Bool := c.isAlphanum || c = '_' || c = '$'

/-- Opening brace character. -/
def lbrace : Char := '\x7b'

/-- Closing brace character. -/
def rbrace : Char := '\x7d'

/-- Strip a literal prefix, or fail. -/
def dropLit : List Char → List Char → Option (List Char)
  | [], l => some l
  | _ :: _, [] => none
  | p :: ps, c :: cs => if c = p then dropLit ps cs else none

/-- Match the keyword alternation `(?:const|let|var)` at the head. The
three keywords share no prefix, so at most one alternative applies. -/
def dropKeyword (l : List Char) : Option (List Char) :=
  match dropLit ("const".toList) l with
  | some r => some r
  | none =>
    match dropLit ("let".toList) l with
    | some r => some r
    | none => dropLit ("var".toList) l

/-- Match one-or-more whitespace, greedily. -/
def dropWS1 (l : List Char) : Option (List Char) :=
  match l with
  | c :: rest => if isWS c then some (rest.dropWhile isWS) else none
  | [] => none

/-- Match an identifier `[a-zA-Z_$][a-zA-Z0-9_$]*`, greedily. -/
def takeIdent (l : List Char) : Option (List Char × List Char) :=
  match l with
  | c :: rest =>
    if isIdentStart c then
      some (c :: rest.takeWhile isIdentChar, rest.dropWhile isIdentChar)
    else none
  | [] => none

/-- Match one expected character. -/
def expectChar (c : Char) (l : List Char) : Option (List Char) :=
  match l with
  | x :: r => if x = c then some r else none
  | [] => none

/-- Tail `\s*[^;]+;` of the rewrite regexes, after the `=` has been
consumed. The class excludes only the semicolon, so greedy matching with
backtracking comes down to: the first semicolon must not be the very
next character, and everything up to and including it is consumed.
Returns (consumed, rest). -/
def rhsThroughSemi (l : List Char) : Option (List Char × List Char) :=
  let pre := l.takeWhile (fun c => c ≠ ';')
  if pre.isEmpty then none
  else
    match l.drop pre.length with
    | ';' :: r => some (pre ++ [';'], r)
    | _ => none

/-- Backtracking step for the tail `\s*[^;\n]+` when the first
non-whitespace character cannot start the one-or-more part: the last
non-newline whitespace character serves as that one character, giving
back the trailing newline run; all-newline whitespace fails. -/
def backtrackWs (ws rest : List Char) : Option (List Char) :=
  let trailingNl := ws.reverse.takeWhile (fun c => c = '\n')
  if trailingNl.length = ws.length then none
  else some (trailingNl ++ rest)

/-- Tail `\s*[^;\n]+` of the destructuring extraction regex, after the
`=`. Greedy whitespace, then at least one character that is neither a
semicolon nor a newline (with backtracking a blank can serve, see
`backtrackWs`). Returns the rest after the maximal match. -/
def dropDestrRhs (l : List Char) : Option (List Char) :=
  let ws := l.takeWhile isWS
  let rest := l.drop ws.length
  match rest with
  | c :: r =>
    if c = ';' then backtrackWs ws rest
    else some (r.dropWhile (fun x => x ≠ ';' && x ≠ '\n'))
  | [] => backtrackWs ws rest

/-- Part `\s*([^}]+)\s*\}` of the destructuring regexes, entered after
the opening brace. The capture cannot cross a closing brace, so it runs
to the first one (at least one character); greedy matching excludes the
leading whitespace from the capture, except that for all-whitespace
content backtracking leaves exactly the last blank in the capture.
Returns (capture, rest after the closing brace). -/
def braceContent (l : List Char) : Option (List Char × List Char) :=
  let content := l.takeWhile (fun c => c ≠ rbrace)
  if content.isEmpty then none
  else
    match l.drop content.length with
    | _ :: r =>
      let core := content.dropWhile isWS
      if core.isEmpty then some ([content.getLastD ' '], r)
      else some (core, r)
    | [] => none

/-- One attempt of the simple-declaration extraction regex
`declRegex = /\b(?:const|let|var)\s+([a-zA-Z_$][a-zA-Z0-9_$]*)\s*=/`
at the current position (the word-boundary test is done by the caller).
Returns the captured name and the rest after the `=`. -/
def tryDeclName (l : List Char) : Option (String × List Char) := do
  let r1 ← dropKeyword l
  let r2 ← dropWS1 r1
  let (id, r3) ← takeIdent r2
  let r4 ← expectChar '=' (r3.dropWhile isWS)
  some (String.mk id, r4)

/-- Insertion into the name set, keeping first-insertion order. -/
def insertName (acc : List String) (n : String) : List String :=
  if acc.contains n then acc else acc ++ [n]

/-- Scan loop of `while ((m = declRegex.exec(src)))`: left to right,
non-overlapping, resuming after each match; `prevW` tracks whether the
previous character is a word character (for the word boundary). Fuel is
the input length — every step consumes at least one character. -/
def scanDeclNames : Nat → Bool → List Char → List String → List String
  | 0, _, _, acc => acc
  | _ + 1, _, [], acc => acc
  | fuel + 1, prevW, c :: rest, acc =>
    match (if prevW then none else tryDeclName (c :: rest)) with
    | some (name, r) => scanDeclNames fuel false r (insertName acc name)
    | none => scanDeclNames fuel (isWordChar c) rest acc

/-- Local bound name of one destructuring piece:
`alias = piece.split(":").map(trim)` and then `alias[1] || alias[0]`
(an empty second part is falsy in JS and falls back to the first). -/
def pieceName (piece : String) : String :=
  let parts := (piece.splitOn ":").map String.trim
  match parts with
  | [] => ""
  | [x] => x
  | x :: y :: _ => if y = "" then x else y

/-- Test of `/^[a-zA-Z_$][a-zA-Z0-9_$]*$/`. -/
def isValidIdent (s : String) : Bool :=
  match s.toList with
  | [] => false
  | c :: rest => isIdentStart c && rest.all isIdentChar

/-- Names added by the destructuring extraction loop for one captured
group: split on commas, trim, drop empties, take the local name of each
piece, keep only valid identifiers. -/
def destrNames (inner : String) : List String :=
  (((inner.splitOn ",").map String.trim).filter (fun s => s ≠ "")).filterMap
    (fun piece =>
      let n := pieceName piece
      if isValidIdent n then some n else none)

/-- One attempt of the destructuring extraction regex
`destrRegex = /\b(?:const|let|var)\s*\{([^}]+)\}\s*=\s*[^;\n]+/` at the
current position. Returns the local names of the capture and the rest
after the match. -/
def tryDestrExtract (l : List Char) : Option (List String × List Char) := do
  let r1 ← dropKeyword l
  let r2 ← expectChar lbrace (r1.dropWhile isWS)
  let (inner, r3) ← braceContent r2
  let r4 ← expectChar '=' (r3.dropWhile isWS)
  let r5 ← dropDestrRhs r4
  some (destrNames (String.mk inner), r5)

/-- Character right before the suffix `r` of `l` (the last consumed one),
used to resume the word-boundary tracking after a match. -/
def lastConsumed (l r : List Char) : Char :=
  (l.take (l.length - r.length)).getLastD ' '

/-- Scan loop of `while ((dm = destrRegex.exec(src)))`. -/
def scanDestrNames : Nat → Bool → List Char → List String → List String
  | 0, _, _, acc => acc
  | _ + 1, _, [], acc => acc
  | fuel + 1, prevW, c :: rest, acc =>
    match (if prevW then none else tryDestrExtract (c :: rest)) with
    | some (names, r) =>
      scanDestrNames fuel (isWordChar (lastConsumed (c :: rest) r)) r
        (names.foldl insertName acc)
    | none => scanDestrNames fuel (isWordChar c) rest acc

/-- Embedding of `extractUserVarNames` from `handleRun`: the names found
by the simple-declaration regex, then those found by the destructuring
regex, in first-insertion order (one JS `Set`, read off by
`Array.from`). -/
def extractUserVarNames (src : String) : List String :=
  let l := src.toList
  scanDestrNames l.length false l (scanDeclNames l.length false l [])

/-- Continuation after one alternation candidate of
`declAssignRe = /\b(?:const|let|var)\s+(n1|n2|...)\s*=\s*[^;]+;/`:
the literal name, then `\s*=\s*[^;]+;`. Returns the rest. -/
def nameCont (n : String) (l : List Char) : Option (List Char) := do
  let r1 ← dropLit n.toList l
  let r2 ← expectChar '=' (r1.dropWhile isWS)
  let (_, r3) ← rhsThroughSemi r2
  some r3

/-- Alternation over the user variable names, tried in list order with
backtracking: the first name whose literal text and continuation both
match wins (JS alternation semantics). -/
def firstNameMatch : List String → List Char → Option (String × List Char)
  | [], _ => none
  | n :: ns, l =>
    match nameCont n l with
    | some r => some (n, r)
    | none => firstNameMatch ns l

/-- One attempt of the instrumentation rewrite regex `declAssignRe` at
the current position. Returns (matched statement, variable name, rest). -/
def tryDeclAssign (names : List String) (l : List Char) :
    Option (List Char × String × List Char) := do
  let r1 ← dropKeyword l
  let r2 ← dropWS1 r1
  let (n, r3) ← firstNameMatch names r2
  some (l.take (l.length - r3.length), n, r3)

/-- Replacement tail appended after an instrumented declaration:
a newline and one trace-emission call for the variable. -/
def logCall (n : String) : List Char :=
  ("\n__log(\"" ++ n ++ "\", " ++ n ++ ");").toList

/-- Embedding of
`instrumentedCode.replace(declAssignRe, (stmt, varName) => ...)`:
left-to-right scan, non-overlapping matches, replacement text emitted
and never rescanned. -/
def declAssignRewrite (names : List String) : Nat → Bool → List Char → List Char
  | 0, _, l => l
  | _ + 1, _, [] => []
  | fuel + 1, prevW, c :: rest =>
    match (if prevW then none else tryDeclAssign names (c :: rest)) with
    | some (stmt, n, r) =>
      stmt ++ logCall n ++ declAssignRewrite names fuel false r
    | none => c :: declAssignRewrite names fuel (isWordChar c) rest

/-- Candidates of the destructuring rewrite for one captured group:
split on commas, trim, take local names, keep those that are valid
identifiers and belong to the user variable name set. -/
def destrCandidates (names : List String) (inner : String) : List String :=
  (((inner.splitOn ",").map String.trim).map pieceName).filter
    (fun v => isValidIdent v && names.contains v)

/-- One attempt of the destructuring rewrite regex
`destrRe = /\b(?:const|let|var)\s*\{\s*([^}]+)\s*\}\s*=\s*[^;]+;/` at
the current position. Returns (matched statement, candidates, rest). -/
def tryDestrAssign (names : List String) (l : List Char) :
    Option (List Char × List String × List Char) := do
  let r1 ← dropKeyword l
  let r2 ← expectChar lbrace (r1.dropWhile isWS)
  let (inner, r3) ← braceContent r2
  let r4 ← expectChar '=' (r3.dropWhile isWS)
  let (_, r5) ← rhsThroughSemi r4
  some (l.take (l.length - r5.length), destrCandidates names (String.mk inner), r5)

/-- Trace-emission block appended after an instrumented destructuring
declaration: one call per candidate, joined by newlines. -/
def destrLogs (candidates : List String) : List Char :=
  (String.intercalate "\n"
    (candidates.map (fun n => "__log(\"" ++ n ++ "\", " ++ n ++ ");"))).toList

/-- Embedding of `instrumentedCode.replace(destrRe, ...)`. -/
def destrRewrite (names : List String) : Nat → Bool → List Char → List Char
  | 0, _, l => l
  | _ + 1, _, [] => []
  | fuel + 1, prevW, c :: rest =>
    match (if prevW then none else tryDestrAssign names (c :: rest)) with
    | some (stmt, cands, r) =>
      stmt ++ (if cands.isEmpty then [] else '\n' :: destrLogs cands)
        ++ destrRewrite names fuel false r
    | none => c :: destrRewrite names fuel (isWordChar c) rest

/-- One attempt of `/console\.log\(([^)]*)\);?/` at the current
position: the literal head, a possibly empty argument text that cannot
cross a closing parenthesis, the closing parenthesis, and an optional
semicolon. Returns (argument text, rest). -/
def tryConsole (l : List Char) : Option (List Char × List Char) := do
  let r1 ← dropLit ("console.log(".toList) l
  let args := r1.takeWhile (fun c => c ≠ ')')
  let r2 ← expectChar ')' (r1.drop args.length)
  match r2 with
  | ';' :: r3 => some (args, r3)
  | _ => some (args, r2)

/-- Embedding of
`.replace(/console\.log\(([^)]*)\);?/g, quoted __log of console with [ $1 ])`
— the diagnostic-call rewrite (this regex has no word-boundary test). -/
def consoleRewrite : Nat → List Char → List Char
  | 0, l => l
  | _ + 1, [] => []
  | fuel + 1, c :: rest =>
    match tryConsole (c :: rest) with
    | some (args, r) =>
      ("__log(\"console\", [ ").toList ++ args ++ (" ]);").toList
        ++ consoleRewrite fuel r
    | none => c :: consoleRewrite fuel rest

/-- Instrumentation body of `handleRun`, applied to the text `src` with
the variable names `names` (which `handleRun` extracts from the original
pre-transpilation user source): the simple-declaration rewrite, then the
destructuring rewrite (both skipped when no names were collected), then
the diagnostic-call rewrite. -/
def instrumentWith (names : List String) (src : String) : String :=
  let l := src.toList
  let s1 := if names.length > 0 then declAssignRewrite names l.length false l else l
  let s2 := if names.length > 0 then destrRewrite names s1.length false s1 else s1
  String.mk (consoleRewrite s2.length s2)

/-- One full instrumentation pass over a single text: names extracted
from that text, then the rewrites applied to it (this is `handleRun`
when the transpiled code coincides with the user source text). -/
def instrument (src : String) : String :=
  instrumentWith (extractUserVarNames src) src

/-- Number of positions where `pat` occurs in the text. -/
def countOcc (pat : List Char) : Nat → List Char → Nat
  | 0, _ => 0
  | _ + 1, [] => 0
  | fuel + 1, c :: rest =>
    (if pat.isPrefixOf (c :: rest) then 1 else 0) + countOcc pat fuel rest

/-- Number of trace-emission calls for key `name` in the text: the
occurrence count of the text `__log("name"`. -/
def countLogCalls (name : String) (s : String) : Nat :=
  countOcc (("__log(\"" ++ name ++ "\"").toList) s.toList.length s.toList

/-! ## Sandbox trace emitter, host controller and module resolver -/

/-- Trace event as built by the prelude emitter `window.__log` (the
presentation-only `formatted` string — DevTools-style format
substitution — is not modelled; no claim concerns it). -/
structure SLogEntry where
  key : String
  value : SVal
  timestamp : Nat
  source : String
  args : Option (List SVal)
  deriving Repr

/-- Embedding of `window.__log(key, value)`: console entries carry the
raw argument array, everything is serialized through
`__safeSerialize`, and the args list is the element-wise serialization
of the raw arguments in their original order. -/
def jsLog (heap : Heap) (t : Nat) (key : String) (value : JSVal) : SLogEntry :=
  let rawArgs : Option (List JSVal) :=
    if key = "console" then
      match value with
      | .arr items => some items
      | _ => none
    else none
  { key := key
    value := safeSerialize heap value
    timestamp := t
    source := if key = "console" then "console" else "inline"
    args := rawArgs.map (fun items => items.map (safeSerialize heap)) }

/-- Host-side run state owned by the Playground component: accumulated
trace events, the running flag, and the error banner. -/
structure HostState where
  logs : List SLogEntry
  isRunning : Bool
  error : Option String
  deriving Repr

/-- Embedding of `handleError`: record the message and stop treating the
run as running; the trace list is untouched. -/
def handleError (st : HostState) (msg : String) : HostState :=
  { st with error := some msg, isRunning := false }

/-- The reserved keys dropped by the host message handler. -/
def internalKeys : List String :=
  ["run", "script", "viem", "user-code", "success", "iframe", "error"]

/-- Messages posted by the sandbox to the host. -/
inductive SandboxMsg where
  | log : SLogEntry → SandboxMsg
  | errMsg : String → SandboxMsg

/-- Embedding of the `messageHandler` registered by `handleRun`:
messages whose source is not the iframe of the current run are ignored; LOG
events with a reserved key are dropped, all others appended
(`handleLog`); ERROR messages go to `handleError`. -/
def messageHandler (st : HostState) (fromCurrentIframe : Bool)
    (m : SandboxMsg) : HostState :=
  if fromCurrentIframe = false then st
  else
    match m with
    | .log e =>
      if internalKeys.contains e.key then st
      else { st with logs := st.logs ++ [e] }
    | .errMsg msg => handleError st msg

/-- Synchronous entry of `handleRun`: `if (isRunning) return;` — when a
run is already in progress it returns at once; otherwise it marks the
run started and clears the trace list and error state. The Bool reports
whether this call goes on to create a new execution context (iframe and
message stream). -/
def handleRunEntry (st : HostState) : HostState × Bool :=
  if st.isRunning then (st, false)
  else ({ st with isRunning := true, logs := [], error := none }, true)

/-- Embedding of the JS `String.prototype.startsWith` test (also used
for the anchored regex test of the absolute-URL prefixes). -/
def jsStartsWith (s pre : String) : Bool := pre.toList.isPrefixOf s.toList

/-- Embedding of the final catch-all `onResolve` of `httpPlugin` in
`src/lib/esbuild.ts`: the entry module, namespaced paths, absolute and
relative paths and absolute URLs are left to the other resolvers
(`none`); the specially-cased viem namespace gets the pre-bundled CDN
URL form, every other bare specifier the generic CDN URL. -/
def bareResolve (cdnBase p : String) : Option String :=
  if p == "<stdin>" || jsStartsWith p "\x00" || jsStartsWith p "/"
      || jsStartsWith p "." || jsStartsWith p "http://"
      || jsStartsWith p "https://" then
    none
  else if p == "viem" || jsStartsWith p "viem/" then
    some (cdnBase ++ p ++ "?bundle&target=es2022")
  else
    some (cdnBase ++ p)

/-! ### The serializer with its exception channel explicit

`inner` can throw: the Date branch calls `val.toISOString()`, which
raises a `RangeError` for an Invalid Date, and neither the top-level
call `inner(value, 0)` nor the array branch
`val.map((item) => inner(item, depth + 1))` is guarded by any catch —
only the per-key loop of a plain object is. The embedding below makes
that channel explicit with `Except`; the `WeakSet` state is returned
even when an exception propagates, because the set is a mutable object
whose mutations survive the throw. -/

/-- Runtime values for the failure analysis: as `JSVal`, extended with
the Invalid Date, whose `toISOString()` call throws. -/
inductive JSValE where
  | prim : JSPrim → JSValE
  | big : String → JSValE
  | func : String → JSValE
  | sym : String → JSValE
  | err : String → String → String → JSValE
  | date : String → JSValE
  | invalidDate : JSValE
  | arr : List JSValE → JSValE
  | obj : Nat → JSValE
  deriving Repr

/-- Heaps over the extended value universe. -/
abbrev HeapX : Type := List (Nat × List (String × JField JSValE))

/-- Field list of the object at address `a` (extended universe). -/
def heapFieldsX (heap : HeapX) (a : Nat) : List (String × JField JSValE) :=
  match heap.find? (fun p => p.1 = a) with
  | some p => p.2
  | none => []

/-- The array branch `val.map((item) => inner(item, depth + 1))` with
the exception channel explicit: an element failure aborts the map and
propagates, keeping the `WeakSet` mutations already performed (by the
earlier elements and by the failing element itself). -/
def serItemsE (f : JSValE → List Nat → Except Unit SVal × List Nat) :
    List JSValE → List Nat → Except Unit (List SVal) × List Nat
  | [], seen => (.ok [], seen)
  | it :: rest, seen =>
    let r := f it seen
    match r.1 with
    | .error e => (.error e, r.2)
    | .ok o =>
      let rs := serItemsE f rest r.2
      match rs.1 with
      | .error e => (.error e, rs.2)
      | .ok os => (.ok (o :: os), rs.2)

/-- The per-key loop with the exception channel explicit: a throwing
property read gives `[Unserializable]` without touching the set; a key
whose value fails to serialize also gives `[Unserializable]` (the
per-key catch), but the loop continues from the state left behind by
the failed attempt — the mutations it made to the `WeakSet` persist.
The loop itself never throws, exactly as in the source. -/
def serFieldsE (f : JSValE → List Nat → Except Unit SVal × List Nat) :
    List (String × JField JSValE) → List Nat → List (String × SVal) × List Nat
  | [], seen => ([], seen)
  | (k, .throws) :: rest, seen =>
    let rs := serFieldsE f rest seen
    ((k, unserializableMarker) :: rs.1, rs.2)
  | (k, .ok v) :: rest, seen =>
    let r := f v seen
    let o :=
      match r.1 with
      | .ok o => o
      | .error _ => unserializableMarker
    let rs := serFieldsE f rest r.2
    ((k, o) :: rs.1, rs.2)

/-- The recursive `inner(val, depth)` with the exception channel
explicit (same gas convention as `innerF`): the Invalid Date branch
throws, array element failures propagate, and a plain object's key loop
catches per key and never throws. -/
def innerE (heap : HeapX) : Nat → JSValE → List Nat → Except Unit SVal × List Nat
  | 0 => fun _ seen => (.ok maxDepthMarker, seen)
  | gas + 1 => fun v seen =>
    match v with
    | .prim p => (.ok (.prim p), seen)
    | .big s => (.ok (.tagged "bigint" [("value", s)]), seen)
    | .func n =>
      (.ok (.tagged "function"
        [("name", if n = "" then "anonymous" else n)]), seen)
    | .sym s => (.ok (.tagged "symbol" [("value", s)]), seen)
    | .err n m stk =>
      (.ok (.tagged "Error" [("name", n), ("message", m), ("stack", stk)]), seen)
    | .date iso => (.ok (.tagged "Date" [("value", iso)]), seen)
    | .invalidDate => (.error (), seen)
    | .arr items =>
      let r := serItemsE (innerE heap gas) items seen
      (r.1.map SVal.arr, r.2)
    | .obj a =>
      if a ∈ seen then (.ok circularMarker, seen)
      else
        let r :=
          serFieldsE (innerE heap gas) ((heapFieldsX heap a).take 50) (a :: seen)
        (.ok (.obj r.1), r.2)

/-- The whole `__safeSerialize(value)` with its exception channel:
`return inner(value, 0)` is unguarded, so an exception from `inner`
propagates to the caller of `__safeSerialize`. -/
def safeSerializeE (heap : HeapX) (v : JSValE) : Except Unit SVal :=
  (innerE heap 4 v []).1

-- An object whose key "bad" holds an array that fails to serialize
-- after its first element (the object at address 1) has been added to
-- the visited set, and whose key "good" shares that object.
def pollutedHeap : HeapX :=
  [(0, [("bad", .ok (.arr [.obj 1, .invalidDate])),
        ("good", .ok (.obj 1))]),
   (1, [("x", .ok (.prim (.vNum 1)))])]

-- The same object with the failing key removed.
def prunedHeap : HeapX :=
  [(0, [("good", .ok (.obj 1))]),
   (1, [("x", .ok (.prim (.vNum 1)))])]

/-! ## Theorems -/

/-- Unfolding of the serializer on a plain object at positive gas. -/
theorem innerF_succ_obj (heap : Heap) (gas a : Nat) (s : List Nat) :
    innerF heap (gas + 1) (.obj a) s =
      if a ∈ s then (circularMarker, s)
      else
        (SVal.obj
            (serFields (innerF heap gas) ((heapFields heap a).take 50) (a :: s)).1,
          (serFields (innerF heap gas) ((heapFields heap a).take 50) (a :: s)).2) := by
  by_cases h : a ∈ s <;> simp [innerF, h]

/-- The `WeakSet` state only grows along `val.map(...)`. -/
theorem serItems_seen_mono (f : JSVal → List Nat → SVal × List Nat)
    (hf : ∀ v s, s ⊆ (f v s).2) (l : List JSVal) :
    ∀ s, s ⊆ (serItems f l s).2 := by
  induction l with
  | nil => intro s; simp [serItems]
  | cons it rest ih =>
    intro s
    exact List.Subset.trans (hf it s) (ih (f it s).2)

/-- The `WeakSet` state only grows along the key loop. -/
theorem serFields_seen_mono (f : JSVal → List Nat → SVal × List Nat)
    (hf : ∀ v s, s ⊆ (f v s).2) (l : List (String × JField JSVal)) :
    ∀ s, s ⊆ (serFields f l s).2 := by
  induction l with
  | nil => intro s; simp [serFields]
  | cons kv rest ih =>
    intro s
    match kv with
    | (k, .throws) => exact ih s
    | (k, .ok v) => exact List.Subset.trans (hf v s) (ih (f v s).2)

/-- Objects are added to the `WeakSet` and never removed: the set of
visited addresses grows monotonically through the whole call, across
sibling positions included. -/
theorem innerF_seen_mono (heap : Heap) :
    ∀ gas (v : JSVal) (s : List Nat), s ⊆ (innerF heap gas v s).2 := by
  intro gas
  induction gas with
  | zero => intro v s; simp [innerF]
  | succ g ih =>
    intro v s
    cases v with
    | prim p => simp [innerF]
    | big x => simp [innerF]
    | func x => simp [innerF]
    | sym x => simp [innerF]
    | err x y z => simp [innerF]
    | date x => simp [innerF]
    | arr items => simpa [innerF] using serItems_seen_mono _ ih items s
    | obj a =>
      rw [innerF_succ_obj]
      by_cases h : a ∈ s
      · simp [h]
      · simp only [h, if_false]
        exact List.Subset.trans (List.subset_cons_self a s)
          (serFields_seen_mono _ ih _ (a :: s))

/-- Inside the key loop, any field whose value is an object that is
already in the `WeakSet` comes out as `[Circular]`. -/
theorem serFields_mem_circ (heap : Heap) (gas : Nat)
    (fields : List (String × JField JSVal)) (a : Nat) (k : String) :
    ∀ s, a ∈ s → (k, JField.ok (JSVal.obj a)) ∈ fields →
      (k, circularMarker) ∈ (serFields (innerF heap (gas + 1)) fields s).1 := by
  induction fields with
  | nil => intro s _ hmem; cases hmem
  | cons kv rest ih =>
    intro s hs hmem
    rcases List.mem_cons.mp hmem with heq | hrest
    · subst heq
      simp only [serFields, innerF_succ_obj, hs, if_pos]
      exact List.mem_cons_self _ _
    · match kv with
      | (k', .throws) =>
        simp only [serFields]
        exact List.mem_cons_of_mem _ (ih s hs hrest)
      | (k', .ok v) =>
        simp only [serFields]
        exact List.mem_cons_of_mem _
          (ih _ (innerF_seen_mono heap (gas + 1) v s hs) hrest)

theorem hasMDList_eq_false (l : List SVal) (h : ∀ x ∈ l, hasMD x = false) :
    hasMDList l = false := by
  induction l with
  | nil => rfl
  | cons x xs ih =>
    simp only [hasMDList, Bool.or_eq_false_iff]
    exact ⟨h x (List.mem_cons_self _ _), ih fun y hy => h y (List.mem_cons_of_mem _ hy)⟩

theorem hasMDFields_eq_false (l : List (String × SVal))
    (h : ∀ kv ∈ l, hasMD kv.2 = false) : hasMDFields l = false := by
  induction l with
  | nil => rfl
  | cons kv xs ih =>
    simp only [hasMDFields, Bool.or_eq_false_iff]
    exact ⟨h kv (List.mem_cons_self _ _), ih fun y hy => h y (List.mem_cons_of_mem _ hy)⟩

/-- Element-wise property transport through `val.map(...)`. -/
theorem serItems_forall (f : JSVal → List Nat → SVal × List Nat)
    (P : SVal → Prop) (l : List JSVal)
    (hf : ∀ v ∈ l, ∀ s, P (f v s).1) :
    ∀ s, ∀ x ∈ (serItems f l s).1, P x := by
  induction l with
  | nil => intro s x hx; simp [serItems] at hx
  | cons it rest ih =>
    intro s x hx
    simp only [serItems] at hx
    rcases List.mem_cons.mp hx with rfl | hx'
    · exact hf it (List.mem_cons_self _ _) s
    · exact ih (fun v hv s' => hf v (List.mem_cons_of_mem _ hv) s') (f it s).2 x hx'

/-- Value-wise property transport through the key loop: a throwing key
contributes the `[Unserializable]` marker, every other key the
serialization of its value. -/
theorem serFields_forall (f : JSVal → List Nat → SVal × List Nat)
    (P : SVal → Prop) (l : List (String × JField JSVal))
    (hf : ∀ kv ∈ l, ∀ v, kv.2 = JField.ok v → ∀ s, P (f v s).1)
    (hP : P unserializableMarker) :
    ∀ s, ∀ kv ∈ (serFields f l s).1, P kv.2 := by
  induction l with
  | nil => intro s kv hkv; simp [serFields] at hkv
  | cons kv₀ rest ih =>
    intro s kv hkv
    match kv₀ with
    | (k, .throws) =>
      simp only [serFields] at hkv
      rcases List.mem_cons.mp hkv with rfl | hx'
      · exact hP
      · exact ih (fun p hp => hf p (List.mem_cons_of_mem _ hp)) s kv hx'
    | (k, .ok v) =>
      simp only [serFields] at hkv
      rcases List.mem_cons.mp hkv with rfl | hx'
      · exact hf (k, .ok v) (List.mem_cons_self _ _) v rfl s
      · exact ih (fun p hp => hf p (List.mem_cons_of_mem _ hp)) (f v s).2 kv hx'

/-- A value nested at most `n` levels serializes without any
`[MaxDepth]` marker whenever the remaining gas exceeds `n`. -/
theorem depthLe_no_maxDepth (heap : Heap) (v : JSVal) (n : Nat)
    (h : DepthLe heap v n) :
    ∀ gas, n < gas → ∀ s, hasMD (innerF heap gas v s).1 = false := by
  induction h with
  | prim p n hp =>
    intro gas hgas s
    obtain ⟨g, rfl⟩ : ∃ g, gas = g + 1 := ⟨gas - 1, by omega⟩
    cases p with
    | vStr str =>
      simp only [innerF, hasMD, decide_eq_false_iff_not]
      intro hc
      exact hp (by rw [hc])
    | vNull => simp [innerF, hasMD]
    | vNum m => simp [innerF, hasMD]
    | vBool b => simp [innerF, hasMD]
  | big s' n =>
    intro gas hgas s
    obtain ⟨g, rfl⟩ : ∃ g, gas = g + 1 := ⟨gas - 1, by omega⟩
    simp [innerF, hasMD]
  | func s' n =>
    intro gas hgas s
    obtain ⟨g, rfl⟩ : ∃ g, gas = g + 1 := ⟨gas - 1, by omega⟩
    simp [innerF, hasMD]
  | sym s' n =>
    intro gas hgas s
    obtain ⟨g, rfl⟩ : ∃ g, gas = g + 1 := ⟨gas - 1, by omega⟩
    simp [innerF, hasMD]
  | err x y z n =>
    intro gas hgas s
    obtain ⟨g, rfl⟩ : ∃ g, gas = g + 1 := ⟨gas - 1, by omega⟩
    simp [innerF, hasMD]
  | date s' n =>
    intro gas hgas s
    obtain ⟨g, rfl⟩ : ∃ g, gas = g + 1 := ⟨gas - 1, by omega⟩
    simp [innerF, hasMD]
  | arr items n hmem ih =>
    intro gas hgas s
    obtain ⟨g, rfl⟩ : ∃ g, gas = g + 1 := ⟨gas - 1, by omega⟩
    have hg : n < g := by omega
    simp only [innerF, hasMD]
    exact hasMDList_eq_false _
      (serItems_forall _ (fun x => hasMD x = false) items
        (fun v hv s' => ih v hv g hg s') s)
  | obj a n hmem ih =>
    intro gas hgas s
    obtain ⟨g, rfl⟩ : ∃ g, gas = g + 1 := ⟨gas - 1, by omega⟩
    have hg : n < g := by omega
    rw [innerF_succ_obj]
    by_cases hs : a ∈ s
    · simp [hs, circularMarker, hasMD]
    · simp only [hs, if_false, hasMD]
      refine hasMDFields_eq_false _ ?_
      refine serFields_forall _ (fun x => hasMD x = false) _ ?_
        (by simp [unserializableMarker, hasMD]) (a :: s)
      intro kv hkv v hv s'
      exact ih kv (List.mem_of_mem_take hkv) v hv g hg s'

/-- C1 (counterexample). On the acyclic graph `dagHeap` — the object at
address 1 is shared between the two sibling keys `a` and `b` of the root
and is not its own ancestor on any path — the second occurrence renders
as `[Circular]` rather than being descended into; the shared object is
itself a perfectly serializable leaf object. This refutes the claim that
only an object that is its own ancestor on the current recursion path is
rendered `[Circular]`. -/
theorem shared_dag_reference_flagged_circular :
    safeSerialize dagHeap (.obj 1) = SVal.obj [("x", .prim (.vNum 1))] ∧
    safeSerialize dagHeap (.obj 0) =
      SVal.obj [("a", SVal.obj [("x", SVal.prim (.vNum 1))]),
        ("b", circularMarker)] :=
  ⟨rfl, rfl⟩

/-- C1 (amended). The visited set of the serializer is global to the whole
`serialize` call, not scoped to the current recursion path: an object
whose address is already in the visited set renders as `[Circular]`
wherever it occurs next (ancestor or shared sibling alike), and the
visited set only ever grows during the call — objects are never removed
when the walk leaves them. -/
theorem serializer_visited_set_is_global (heap : Heap) (gas a : Nat)
    (s : List Nat) (h : a ∈ s) :
    innerF heap (gas + 1) (JSVal.obj a) s = (circularMarker, s) ∧
    ∀ (g : Nat) (v : JSVal) (s' : List Nat), s' ⊆ (innerF heap g v s').2 := by
  constructor
  · rw [innerF_succ_obj]; simp [h]
  · exact fun g v s' => innerF_seen_mono heap g v s'

/-- Witness for `serializer_visited_set_is_global` at a concrete input. -/
theorem serializer_visited_set_is_global_witness :
    innerF dagHeap 1 (JSVal.obj 1) [1, 0] = (circularMarker, [1, 0]) :=
  (serializer_visited_set_is_global dagHeap 0 1 [1, 0] (by simp)).1

/-- C3. For any heap in which the object at address `a` has a field `k`
holding `a` itself (a self-reference, `a.self === a`), `serialize`
terminates (it is a total function of this embedding, the recursion being
bounded by the depth budget) and the self-reference position renders as
the `[Circular]` marker. -/
theorem self_reference_renders_circular (heap : Heap) (a : Nat) (k : String)
    (hmem : (k, JField.ok (JSVal.obj a)) ∈ (heapFields heap a).take 50) :
    ∃ out, safeSerialize heap (.obj a) = SVal.obj out ∧
      (k, circularMarker) ∈ out := by
  have h4 : (4 : Nat) = 3 + 1 := rfl
  rw [safeSerialize, h4, innerF_succ_obj]
  simp only [List.not_mem_nil, if_false]
  refine ⟨_, rfl, ?_⟩
  have h3 : (3 : Nat) = 2 + 1 := rfl
  rw [h3]
  exact serFields_mem_circ heap 2 _ a k [a] (List.mem_singleton.mpr rfl) hmem

/-- Witness for `self_reference_renders_circular` on `selfHeap`. -/
theorem self_reference_renders_circular_witness :
    ∃ out, safeSerialize selfHeap (.obj 0) = SVal.obj out ∧
      ("self", circularMarker) ∈ out :=
  self_reference_renders_circular selfHeap 0 "self" (List.mem_cons_self _ _)

/-- Unfolding of the exception-explicit serializer on a plain object. -/
theorem innerE_succ_obj (heap : HeapX) (gas a : Nat) (s : List Nat) :
    innerE heap (gas + 1) (.obj a) s =
      if a ∈ s then (Except.ok circularMarker, s)
      else
        (Except.ok (SVal.obj
            (serFieldsE (innerE heap gas)
              ((heapFieldsX heap a).take 50) (a :: s)).1),
          (serFieldsE (innerE heap gas)
            ((heapFieldsX heap a).take 50) (a :: s)).2) := by
  by_cases h : a ∈ s <;> simp [innerE, h]

/-- The exception-explicit key loop emits exactly the input keys, in
order: it never throws, drops or duplicates a key. -/
theorem serFieldsE_keys (f : JSValE → List Nat → Except Unit SVal × List Nat)
    (fields : List (String × JField JSValE)) :
    ∀ s, ((serFieldsE f fields s).1.map Prod.fst) = fields.map Prod.fst := by
  induction fields with
  | nil => intro s; simp [serFieldsE]
  | cons kv rest ih =>
    intro s
    match kv with
    | (k, .throws) => simp [serFieldsE, ih]
    | (k, .ok v) => simp [serFieldsE, ih]

/-- The exception-explicit key loop distributes over list append. -/
theorem serFieldsE_append (f : JSValE → List Nat → Except Unit SVal × List Nat)
    (l₁ l₂ : List (String × JField JSValE)) :
    ∀ s, serFieldsE f (l₁ ++ l₂) s =
      ((serFieldsE f l₁ s).1 ++ (serFieldsE f l₂ (serFieldsE f l₁ s).2).1,
        (serFieldsE f l₂ (serFieldsE f l₁ s).2).2) := by
  induction l₁ with
  | nil => intro s; simp [serFieldsE]
  | cons kv rest ih =>
    intro s
    match kv with
    | (k, .throws) => simp [serFieldsE, ih]
    | (k, .ok v) => simp [serFieldsE, ih]

/-- C4 (counterexample). A serialization failure can propagate out of
serialize to its caller, and a failing key is not perfectly isolated.
An Invalid Date — `new Date(NaN)`, whose `toISOString()` throws — as
the top-level value or as an array element is guarded by no catch, so
`__safeSerialize` itself throws to its caller (`__log`). And on
`pollutedHeap`, where the key `bad` holds an array whose first element
is the shared object at address 1 and whose second element is an
Invalid Date, the failed key renders `[Unserializable]` but has already
added that object to the visited set, so the sibling key `good` renders
`[Circular]` — while with the bad key removed (`prunedHeap`) the same
key serializes fully. -/
theorem serialization_failure_propagates :
    safeSerializeE [] JSValE.invalidDate = Except.error () ∧
    safeSerializeE [] (JSValE.arr [JSValE.prim (.vNum 1), JSValE.invalidDate])
      = Except.error () ∧
    safeSerializeE pollutedHeap (.obj 0)
      = Except.ok (SVal.obj
          [("bad", unserializableMarker), ("good", circularMarker)]) ∧
    safeSerializeE prunedHeap (.obj 0)
      = Except.ok (SVal.obj
          [("good", SVal.obj [("x", SVal.prim (.vNum 1))])]) :=
  ⟨rfl, rfl, rfl, rfl⟩

/-- C4 (amended). The per-key catch isolates a failure to the failing
key's output slot only within a plain object's key loop: the loop never
throws and emits every key in order; a key whose property read throws
becomes the `[Unserializable]` marker and affects nothing else (every
other key serializes exactly as without it — same outputs, same
visited-set state); a key whose value fails to serialize also becomes
the marker, but the loop continues from the visited-set state left
behind by the failed attempt (its mutations persist); and a plain
object serialization always returns normally. Failures reach the
caller of serialize only from positions no key-loop catch guards — the
top-level value itself or an array element. -/
theorem key_failure_isolated_within_key_loop (heap : HeapX) (gas : Nat) :
    (∀ (fields : List (String × JField JSValE)) (s : List Nat),
      ((serFieldsE (innerE heap gas) fields s).1.map Prod.fst)
        = fields.map Prod.fst) ∧
    (∀ (pre post : List (String × JField JSValE)) (k : String) (s : List Nat),
      (serFieldsE (innerE heap gas) (pre ++ (k, JField.throws) :: post) s).1
        = (serFieldsE (innerE heap gas) pre s).1
          ++ (k, unserializableMarker)
            :: (serFieldsE (innerE heap gas) post
                (serFieldsE (innerE heap gas) pre s).2).1
      ∧ (serFieldsE (innerE heap gas) (pre ++ (k, JField.throws) :: post) s).2
        = (serFieldsE (innerE heap gas) (pre ++ post) s).2
      ∧ (serFieldsE (innerE heap gas) (pre ++ post) s).1
        = (serFieldsE (innerE heap gas) pre s).1
          ++ (serFieldsE (innerE heap gas) post
              (serFieldsE (innerE heap gas) pre s).2).1) ∧
    (∀ (k : String) (v : JSValE) (rest : List (String × JField JSValE))
        (s : List Nat) (e : Unit),
      (innerE heap gas v s).1 = Except.error e →
      serFieldsE (innerE heap gas) ((k, JField.ok v) :: rest) s
        = ((k, unserializableMarker)
            :: (serFieldsE (innerE heap gas) rest (innerE heap gas v s).2).1,
          (serFieldsE (innerE heap gas) rest (innerE heap gas v s).2).2)) ∧
    (∀ (a : Nat) (s : List Nat), ∃ out s₂,
      innerE heap (gas + 1) (JSValE.obj a) s = (Except.ok out, s₂)) := by
  refine ⟨fun fields s => serFieldsE_keys _ fields s, ?_, ?_, ?_⟩
  · intro pre post k s
    refine ⟨?_, ?_, ?_⟩ <;> simp [serFieldsE_append, serFieldsE]
  · intro k v rest s e h
    simp [serFieldsE, h]
  · intro a s
    rw [innerE_succ_obj]
    by_cases h : a ∈ s
    · rw [if_pos h]
      exact ⟨circularMarker, s, rfl⟩
    · rw [if_neg h]
      exact ⟨_, _, rfl⟩

/-- Witness for `key_failure_isolated_within_key_loop`: the failing key
of `pollutedHeap` gets the marker, and the loop hands on the polluted
visited set (the shared object at address 1 is in it). -/
theorem key_failure_isolated_within_key_loop_witness :
    serFieldsE (innerE pollutedHeap 3)
        [("bad", JField.ok (JSValE.arr [JSValE.obj 1, JSValE.invalidDate]))] [0]
      = ([("bad", unserializableMarker)], [1, 0]) := by
  have h := (key_failure_isolated_within_key_loop pollutedHeap 3).2.2.1
    "bad" (JSValE.arr [JSValE.obj 1, JSValE.invalidDate]) [] [0] () rfl
  rw [h]
  rfl

/-- C5. `serialize({a:{b:{c:{d:1}}}})` with `maxDepth = 3` yields the
depth-exceeded marker exactly at the 4th nesting level (the value of
`d`), and any value nested at most 3 levels deep (whose string atoms are
not the literal marker text) serializes with no `[MaxDepth]` marker
anywhere in the result. -/
theorem serializer_depth_bound :
    safeSerialize nestHeap (.obj 0) =
      SVal.obj [("a", SVal.obj [("b", SVal.obj
        [("c", SVal.obj [("d", maxDepthMarker)])])])] ∧
    ∀ (heap : Heap) (v : JSVal), DepthLe heap v 3 →
      hasMD (safeSerialize heap v) = false := by
  refine ⟨rfl, ?_⟩
  intro heap v h
  exact depthLe_no_maxDepth heap v 3 h 4 (by omega) []

/-- Witness for `serializer_depth_bound` on a shallow concrete heap. -/
theorem serializer_depth_bound_witness :
    hasMD (safeSerialize flatHeap (.obj 0)) = false := by
  refine serializer_depth_bound.2 flatHeap (.obj 0) ?_
  refine DepthLe.obj 0 2 ?_
  intro kv hkv v hv
  have hfields : heapFields flatHeap 0 =
      [("p", .ok (.prim (.vBool true))), ("q", .throws)] := rfl
  rw [hfields] at hkv
  rcases List.mem_cons.mp hkv with rfl | h2
  · cases hv
    exact DepthLe.prim _ 2 (by simp)
  · rcases List.mem_cons.mp h2 with rfl | h3
    · cases hv
    · cases h3

/-- C2 (counterexample). For the input `const x = 1;`, one
instrumentation pass emits exactly one trace call for `x`, but applying
the instrumentation rewrite a second time to the already-instrumented
output emits a second trace call bound to the same original declaration:
the declaration statement still matches the rewrite regex on the second
pass, so the output gains a duplicate `__log` line. -/
theorem reinstrumentation_adds_second_trace_call :
    countLogCalls "x" (instrument "const x = 1;") = 1 ∧
    instrument (instrument "const x = 1;")
      = "const x = 1;\n__log(\"x\", x);\n__log(\"x\", x);" ∧
    countLogCalls "x" (instrument (instrument "const x = 1;")) = 2 :=
  ⟨rfl, rfl, rfl⟩

/-- C2 (amended). A single instrumentation pass on `const x = 1;` yields
exactly one trace-emission call for `x` (and exactly the expected
output); the pass is however not idempotent-safe — scoping the rewrites
to the names declared in the original text bounds which variables are
traced, but a second pass over instrumented output still re-matches the
original declaration and adds one more trace call for `x`. -/
theorem instrument_single_pass_exactly_one_call :
    instrument "const x = 1;" = "const x = 1;\n__log(\"x\", x);" ∧
    countLogCalls "x" (instrument "const x = 1;") = 1 ∧
    extractUserVarNames "const x = 1;" = ["x"] ∧
    countLogCalls "x"
        (instrumentWith (extractUserVarNames "const x = 1;")
          (instrument "const x = 1;")) = 2 :=
  ⟨rfl, rfl, rfl, rfl⟩

/-- C6. Instrumenting `console.log("x=", 5, true);` produces exactly one
trace-emission call tagged `console`, wrapping the argument list into a
single array literal in source order; the trace event the emitter then
builds for that call carries the serialized args list with exactly three
entries in the original order. -/
theorem console_rewrite_preserves_args :
    instrument "console.log(\"x=\", 5, true);"
      = "__log(\"console\", [ \"x=\", 5, true ]);" ∧
    countLogCalls "console" (instrument "console.log(\"x=\", 5, true);") = 1 ∧
    (jsLog [] 0 "console"
        (.arr [.prim (.vStr "x="), .prim (.vNum 5), .prim (.vBool true)])).args
      = some [SVal.prim (.vStr "x="), SVal.prim (.vNum 5),
          SVal.prim (.vBool true)] ∧
    (jsLog [] 0 "console"
        (.arr [.prim (.vStr "x="), .prim (.vNum 5), .prim (.vBool true)])).source
      = "console" :=
  ⟨rfl, rfl, rfl, rfl⟩

/-- C7. Invoking `handleRun` while a run is already in progress returns
immediately with no observable effect: the accumulated trace events and
the error state are unchanged (the whole state is returned untouched)
and no new execution context or event stream is created. -/
theorem handleRun_while_running_is_noop (logs : List SLogEntry)
    (err : Option String) :
    handleRunEntry ⟨logs, true, err⟩ = (⟨logs, true, err⟩, false) := rfl

/-- C8. When an error arrives during a run — an ERROR message from the
sandbox routed through the message handler, which calls `handleError`,
the same callback a pre-sandbox failure invokes — the controller records
the message, stops treating the run as running, and leaves the
accumulated trace-event list exactly as it was. -/
theorem error_stops_run_keeps_traces (st : HostState) (msg : String) :
    messageHandler st true (.errMsg msg) = handleError st msg ∧
    (messageHandler st true (.errMsg msg)).error = some msg ∧
    (messageHandler st true (.errMsg msg)).isRunning = false ∧
    (messageHandler st true (.errMsg msg)).logs = st.logs :=
  ⟨rfl, rfl, rfl, rfl⟩

/-- C9. For every bare package specifier — not the entry module, not a
namespaced path, not an absolute URL, not starting with a slash or a
dot — the resolver rewrites `viem` and `viem/` subpaths to the
pre-bundled registry URL `base ++ p ++ "?bundle&target=es2022"`, and
every other bare specifier to the generic registry URL `base ++ p`. -/
theorem bare_specifier_resolution (base p : String)
    (h1 : (p == "<stdin>") = false) (h2 : jsStartsWith p "\x00" = false)
    (h3 : jsStartsWith p "/" = false) (h4 : jsStartsWith p "." = false)
    (h5 : jsStartsWith p "http://" = false)
    (h6 : jsStartsWith p "https://" = false) :
    bareResolve base p =
      some (if p == "viem" || jsStartsWith p "viem/" then
        base ++ p ++ "?bundle&target=es2022"
      else base ++ p) := by
  unfold bareResolve
  rw [h1, h2, h3, h4, h5, h6]
  simp only [Bool.or_false, Bool.or_self, Bool.false_eq_true, if_false]
  by_cases hv : (p == "viem" || jsStartsWith p "viem/") = true
  · rw [if_pos hv, if_pos hv]
  · rw [if_neg hv, if_neg hv]

/-- Witness for `bare_specifier_resolution` on the viem namespace. -/
theorem bare_specifier_resolution_witness :
    bareResolve "https://esm.sh/" "viem/chains"
      = some "https://esm.sh/viem/chains?bundle&target=es2022" := by
  have h := bare_specifier_resolution "https://esm.sh/" "viem/chains"
    rfl rfl rfl rfl rfl rfl
  rw [h]
  rfl

/-- C10. A LOG message accepted from the current run is appended to the
trace list if and only if its key is not one of the reserved keys; an
event whose key is reserved leaves the host state entirely unchanged —
and a top-level user variable named `error` is indeed instrumented (one
trace call is emitted and posted for it), yet its key being reserved
means it never becomes a visible trace event. -/
theorem reserved_key_events_invisible (st : HostState) (e : SLogEntry) :
    (messageHandler st true (.log e)).logs
      = (if e.key ∈ internalKeys then st.logs else st.logs ++ [e]) ∧
    (e.key ∈ internalKeys → messageHandler st true (.log e) = st) ∧
    countLogCalls "error" (instrument "const error = 1;") = 1 ∧
    "error" ∈ internalKeys := by
  refine ⟨?_, ?_, rfl, by simp [internalKeys]⟩
  · by_cases h : e.key ∈ internalKeys
    · simp [messageHandler, h]
    · simp [messageHandler, h]
  · intro h
    simp [messageHandler, h]

/-- Witness for `reserved_key_events_invisible`: an `error`-keyed event
leaves a concrete host state unchanged. -/
theorem reserved_key_events_invisible_witness :
    messageHandler ⟨[], true, none⟩ true
        (.log ⟨"error", unserializableMarker, 0, "inline", none⟩)
      = ⟨[], true, none⟩ :=
  (reserved_key_events_invisible ⟨[], true, none⟩
      ⟨"error", unserializableMarker, 0, "inline", none⟩).2.1 (by simp [internalKeys])
